import Mathlib

/-!
BayesR: the IWLS proposal engine and the univariate slice sampler.

A shallow embedding of `do_propose` and `uni_slice` from
`pkg/BayesR/src/BayesR.c`, over an arbitrary linearly ordered field `F`
(exact arithmetic: `F = ℝ` is the intended reading, `F = ℚ` is used to
evaluate the definitions on concrete inputs).

Conventions of the embedding.

* A C array holding an `n × k` matrix in column-major order, `A[i + n * j]`,
  is the function `A i j`.
* Everything the C code obtains from outside the file is an explicit
  argument: the family callbacks (`map2par`, `loglik`, `weights`, `score`),
  the `logPost` callback, the LAPACK routines `dpotrf` / `dpotri`, `log`, and
  the values returned by the random number generator.
* The random number generator is observed through a trace of events
  (`GetRNGstate`, `PutRNGstate`, one event per variate drawn).
* The shrinkage loop of `uni_slice` has no iteration bound in the source; it
  is embedded with a fuel argument and returns `none` when the fuel runs out.
* A value returned by the `logPost` callback is an `Option F`: `some v` for the
  number `v`, `none` for NaN. The comparisons of `uni_slice` against `logy`
  are the C comparisons of doubles, false as soon as one side is NaN.
-/

namespace BayesR

open Matrix

/-! ## Random number generator events -/

/-- What the code does to the process-wide generator: `GetRNGstate()`,
`PutRNGstate()`, or a call of `rnorm` / `rexp` / `runif` / `rgamma`. -/
inductive RngEvent where
  | acquire
  | release
  | draw
  deriving DecidableEq

/-- Scoped-acquisition discipline of a trace, started with `depth` pending
acquisitions: every draw happens while the generator is acquired, no release
happens without an acquisition, and nothing is pending at the end. -/
def rngDisciplined : Nat → List RngEvent → Bool
  | depth, [] => depth == 0
  | depth, RngEvent.acquire :: es => rngDisciplined (depth + 1) es
  | 0, RngEvent.release :: _ => false
  | depth + 1, RngEvent.release :: es => rngDisciplined depth es
  | 0, RngEvent.draw :: _ => false
  | depth + 1, RngEvent.draw :: es => rngDisciplined (depth + 1) es

/-! ## The univariate slice sampler `uni_slice` -/

section Slice

variable {F : Type} [LinearOrderedField F]

/-- Read `ptr[i]` of a numeric vector. -/
def vget (v : List F) (i : Nat) : F := v.getD i 0

/-- The C comparison `a >= b` on two `double`s that may be NaN. A value of
`logPost` is `some v` for the number `v` and `none` for NaN; the comparison is
false as soon as one side is NaN. -/
def geD (a b : Option F) : Bool :=
  match a, b with
  | some x, some y => decide (x ≥ y)
  | _, _ => false

/-- The C comparison `a <= b` on two `double`s that may be NaN. -/
def leD (a b : Option F) : Bool :=
  match a, b with
  | some x, some y => decide (x ≤ y)
  | _, _ => false

/-- The C comparison `a < b` on two `double`s that may be NaN. -/
def ltD (a b : Option F) : Bool :=
  match a, b with
  | some x, some y => decide (x < y)
  | _, _ => false

/-- The variates `uni_slice` receives from the generator: the value of
`rexp(1)`, and the value of the `t`-th call `runif(a, b)` (counted from 0). -/
structure SliceDraws (F : Type) where
  rexp : F
  runif : Nat → F → F → F

/-- What a call of `uni_slice` that returns leaves behind: the returned vector
`g`, the number of `logPost` evaluations made by the two stepping-out loops,
the number of iterations of the shrinkage loop, the candidates of the earlier
(rejected) iterations, and the trace of generator events. -/
structure SliceOut (F : Type) where
  g : List F
  stepEvals : Nat
  iters : Nat
  rejected : List (List F)
  trace : List RngEvent

/-- The loop `while(J > 0)` of lines 529-536. The first argument is the
remaining count `J`; `c` counts the `logPost` evaluations. The test
`lp_eval(...) <= logy` is the comparison of doubles: with a NaN on either side
the loop does not break. -/
def stepLeft (logPost : List F → Option F) (jj : Nat) (w lower : F) (logy : Option F) :
    Nat → List F → Nat → List F × Nat
  | 0, gL, c => (gL, c)
  | J + 1, gL, c =>
    if vget gL jj ≤ lower then (gL, c)
    else if leD (logPost gL) logy then (gL, c + 1)
    else stepLeft logPost jj w lower logy J (gL.set jj (vget gL jj - w)) (c + 1)

/-- The loop `while(K > 0)` of lines 537-544. -/
def stepRight (logPost : List F → Option F) (jj : Nat) (w upper : F) (logy : Option F) :
    Nat → List F → Nat → List F × Nat
  | 0, gR, c => (gR, c)
  | K + 1, gR, c =>
    if vget gR jj ≥ upper then (gR, c)
    else if leD (logPost gR) logy then (gR, c + 1)
    else stepRight logPost jj w upper logy K (gR.set jj (vget gR jj + w)) (c + 1)

/-- The shrinkage loop `while(run > 0)` of lines 556-569, with fuel. `t` is
the index of the next `runif` call, `rej` the candidates rejected so far. The
result is the final `g` and the rejected candidates. The test `gx1 >= logy` of
line 561 is the comparison of doubles: a NaN on either side rejects. -/
def shrinkLoop (logPost : List F → Option F) (runif : Nat → F → F → F) (jj : Nat) (x0 : F) (logy : Option F) :
    Nat → Nat → List F → List F → List F → List (List F) → Option (List F × List (List F))
  | 0, _, _, _, _, _ => none
  | fuel + 1, t, g, gL, gR, rej =>
    let g1 := g.set jj (runif t (vget gL jj) (vget gR jj))
    let gx1 := logPost g1
    let run : Int := if geD gx1 logy then 0 else 1
    let gR1 := if vget g1 jj > x0 then gR.set jj (vget g1 jj) else gR
    let gL1 := if vget g1 jj > x0 then gL else gL.set jj (vget g1 jj)
    if run > 0 then shrinkLoop logPost runif jj x0 logy fuel (t + 1) g1 gL1 gR1 (rej ++ [g1])
    else some (g1, rej)

/-- The function `uni_slice` (lines 492-573). `j` is the 1-based coordinate
(`jj = j - 1` is read as a natural number; the C code is undefined for an index
outside the vector), `M` the stepping-out bound (`m = M + 1` is taken in `ℤ`),
`fuel` bounds the shrinkage loop. The loop counts `J` and `K` are C `int`s that
only count down to 0, so the loops run `J.toNat` and `K.toNat` times at most. -/
def uni_slice [FloorRing F] (logPost : List F → Option F) (rng : SliceDraws F) (g : List F) (j : Nat)
    (w : F) (M : Int) (lower upper : F) (fuel : Nat) : Option (SliceOut F) :=
  let jj := j - 1
  let m : Int := M + 1
  let x0 := vget g jj
  let gx0 := logPost g
  let logy := gx0.map (fun v => v - rng.rexp)
  let u := rng.runif 0 0 w
  let gL0 := g.set jj (x0 - u)
  let gR0 := g.set jj (x0 + (w - u))
  let J : Int := ⌊rng.runif 1 0 (m : F)⌋
  let K : Int := (m - 1) - J
  let sL := if m > 1 then stepLeft logPost jj w lower logy J.toNat gL0 0 else (gL0, 0)
  let sR := if m > 1 then stepRight logPost jj w upper logy K.toNat gR0 0 else (gR0, 0)
  let gL1 := if vget sL.1 jj < lower then sL.1.set jj lower else sL.1
  let gR1 := if vget sR.1 jj > upper then sR.1.set jj upper else sR.1
  let t0 : Nat := if m > 1 then 2 else 1
  let head : List RngEvent :=
    [RngEvent.acquire, RngEvent.draw, RngEvent.draw, RngEvent.release] ++
      (if m > 1 then [RngEvent.acquire, RngEvent.draw, RngEvent.release] else [])
  match shrinkLoop logPost rng.runif jj x0 logy fuel t0 g gL1 gR1 [] with
  | none => none
  | some (g1, rej) =>
    some { g := g1, stepEvals := sL.2 + sR.2, iters := rej.length + 1, rejected := rej,
           trace := head ++ List.replicate (rej.length + 1) RngEvent.draw }

end Slice

/-! ## The IWLS proposal engine `do_propose` -/

section Propose

variable {F : Type} [LinearOrderedField F]

/-- The `family` argument: the callbacks `map2par`, `loglik`, and the lists
`weights` and `score` indexed by the term id. `eta` is a list of predictors
indexed by term id. -/
structure Family (ι Resp Par F : Type) (n : Nat) where
  map2par : (ι → Fin n → F) → Par
  loglik : Resp → Par → F
  weights : ι → Resp → Par → Fin n → F
  score : ι → Resp → Par → Fin n → F

/-- What `do_propose` calls outside the file. `dpotrf` and `dpotri` (both with
`uplo = "Upper"`) map the array they are given to the array they leave and the
status `info`; `rnorm j` is the value of the `j`-th call `rnorm(0, 1)`;
`rgamma a s` is the value of the call `rgamma(a, s)`. -/
structure Routines (F : Type) (k : Nat) where
  dpotrf : Matrix (Fin k) (Fin k) F → Matrix (Fin k) (Fin k) F × Int
  dpotri : Matrix (Fin k) (Fin k) F → Matrix (Fin k) (Fin k) F × Int
  log : F → F
  rnorm : Fin k → F
  rgamma : F → F → F

/-- The term object `x`: the flags `fixed` and `fxsp` (R logicals read as C
`int`), the design matrix `X`, the penalty `S[[1]]`, the elements `g`, `fit`
and `tau2` of `x$state`, and the elements `b` and `rank`. -/
structure Term (F : Type) (n k : Nat) where
  fixed : Int
  fxsp : Int
  X : Matrix (Fin n) (Fin k) F
  S : Matrix (Fin k) (Fin k) F
  g : Fin k → F
  fit : Fin n → F
  tau2 : F
  b : F
  rank : F

/-- The list `{g, fit, tau2, alpha}` that `do_propose` returns, together with
the generator events of the call. -/
structure Proposal (F : Type) (n k : Nat) where
  g : Fin k → F
  fit : Fin n → F
  tau2 : F
  alpha : F
  trace : List RngEvent

/-- The loops "Zero the lower triangle" (lines 220-224 and 383-387). -/
def zeroLower {k : Nat} (A : Matrix (Fin k) (Fin k) F) : Matrix (Fin k) (Fin k) F :=
  fun i j => if j < i then 0 else A i j

/-- The loops that copy the upper triangle into the lower one (lines 243-247
and 396-400). -/
def mirrorUpper {k : Nat} (A : Matrix (Fin k) (Fin k) F) : Matrix (Fin k) (Fin k) F :=
  fun i j => if j < i then A j i else A i j

/-- The precision matrix `P` (lines 185-212 and 358-378): `XW[j, i] = X[i, j] * W[i]`,
`P = XW · X` by `dgemm`, and `P[i, j] += 1 / tau2 * S[i, j]` when `fixed < 1`. -/
def precisionMatrix {n k : Nat} (fixed : Int) (X : Matrix (Fin n) (Fin k) F) (W : Fin n → F)
    (S : Matrix (Fin k) (Fin k) F) (tau2 : F) : Matrix (Fin k) (Fin k) F :=
  let XW : Matrix (Fin k) (Fin n) F := fun j i => X i j * W i
  let P : Matrix (Fin k) (Fin k) F := fun a b => ∑ i, XW a i * X i b
  if fixed < 1 then fun i j => P i j + 1 / tau2 * S i j else P

/-- The double loop of lines 301-320 and 411-418 for one pair `(v, A)`:
`tsum += v[j] * A[j + i * k]` over `j`, then `acc += tsum * v[i]` over `i`. -/
def quadForm {k : Nat} (v : Fin k → F) (A : Matrix (Fin k) (Fin k) F) : F :=
  ∑ i, (∑ j, v j * A j i) * v i

/-- The predictor list after line 340: the entry `id` holds the other terms'
predictor plus the fit of the coefficients `g1`. -/
def proposedEta {ι : Type} [DecidableEq ι] {n k : Nat} (x : Term F n k)
    (eta : ι → Fin n → F) (id : ι) (g1 : Fin k → F) : ι → Fin n → F :=
  Function.update eta id (fun i => (eta id i - x.fit i) + ∑ j, x.X i j * g1 j)

/-- The function `do_propose` (lines 120-463). No path of the function raises
an error (the status `info` of the factorization routines is written and never
read): the result is always `Except.ok`. The `dgemm` calls are embedded as the
sums they compute; the family callbacks are pure and total; the dimensions are
those of a non-empty design matrix (what BLAS does with a zero leading dimension
is not part of the embedding). -/
def do_propose {ι Resp Par : Type} [DecidableEq ι] {n k : Nat} (E : Routines F k)
    (family : Family ι Resp Par F n) (x : Term F n k) (response : Resp)
    (eta : ι → Fin n → F) (id : ι) : Except String (Proposal F n k) :=
  let fixed := x.fixed
  let fxsp := x.fxsp
  -- lines 131-146
  let peta := family.map2par eta
  let pibeta := family.loglik response peta
  let weights := family.weights id response peta
  let score := family.score id response peta
  let tau2 := x.tau2
  -- lines 185-192
  let XW : Matrix (Fin k) (Fin n) F := fun j i => x.X i j * weights i
  let z : Fin n → F := fun i => eta id i + score i / weights i
  let eta1 : Fin n → F := fun i => eta id i - x.fit i
  let z2 : Fin n → F := fun i => z i - eta1 i
  -- lines 194-212
  let P := precisionMatrix fixed x.X weights x.S tau2
  -- lines 214-247
  let L := (E.dpotrf (zeroLower P)).1
  let PINV0 := (E.dpotri L).1
  let PINVL := (E.dpotrf PINV0).1
  let PINV := mirrorUpper PINV0
  -- lines 249-261
  let mu0 : Fin k → F := fun a => ∑ i, XW a i * z2 i
  let mu1 : Fin k → F := fun a => ∑ b, PINV a b * mu0 b
  -- lines 263-288
  let g0 : Fin k → F := E.rnorm
  let g1 : Fin k → F := fun a => (∑ b, PINVL b a * g0 b) + mu1 a
  let sdiag0 : F := ∑ j, E.log (L j j ^ 2)
  -- lines 290-327
  let gv := x.g
  let p1 : F := if fixed < 1 then -(1 / 2) / tau2 * quadForm gv x.S else 0
  let p2 : F := if fixed < 1 then -(1 / 2) / tau2 * quadForm g1 x.S else 0
  let b : F := if fixed < 1 then quadForm g1 P else 0
  let qbetaprop : F := 1 / 2 * sdiag0 - 1 / 2 * quadForm (fun j => g1 j - mu1 j) P
  -- lines 329-341
  let fit1 : Fin n → F := fun i => ∑ j, x.X i j * g1 j
  let eta2 : ι → Fin n → F := Function.update eta id (fun i => eta1 i + fit1 i)
  -- lines 343-355
  let peta2 := family.map2par eta2
  let pibetaprop := family.loglik response peta2
  let weights2 := family.weights id response peta2
  let score2 := family.score id response peta2
  -- lines 357-365
  let XW2 : Matrix (Fin k) (Fin n) F := fun j i => x.X i j * weights2 i
  let zb : Fin n → F := fun i => eta2 id i + score2 i / weights2 i
  let eta3 : Fin n → F := fun i => eta2 id i - fit1 i
  let z2b : Fin n → F := fun i => zb i - eta3 i
  -- lines 367-400
  let Pb := precisionMatrix fixed x.X weights2 x.S tau2
  let Lb := (E.dpotrf (zeroLower Pb)).1
  let PINVb := mirrorUpper (E.dpotri Lb).1
  -- lines 402-406
  let mu0b : Fin k → F := fun a => ∑ i, XW2 a i * z2b i
  let mu1b : Fin k → F := fun a => ∑ c, PINVb a c * mu0b c
  -- lines 408-420
  let sdiag0b : F := ∑ i, E.log (Lb i i ^ 2)
  let qbeta : F := 1 / 2 * sdiag0b - 1 / 2 * quadForm (fun j => gv j - mu1b j) Pb
  -- lines 422-432
  let tau3 : F := if fixed < 1 ∧ fxsp < 1 then 1 / E.rgamma x.rank (1 / (b + x.b)) else tau2
  -- lines 434-437
  let alpha : F := (pibetaprop + qbeta + p2) - (pibeta + qbetaprop + p1)
  Except.ok
    { g := g1, fit := fit1, tau2 := tau3, alpha := alpha,
      trace := [RngEvent.acquire] ++ List.replicate k RngEvent.draw ++ [RngEvent.release] ++
        (if fixed < 1 ∧ fxsp < 1 then [RngEvent.acquire, RngEvent.draw, RngEvent.release]
          else []) }

/-! ## Specification vocabulary -/

/-- Symmetric positive-definite: `A` is symmetric and `v' A v > 0` for every
non-zero `v`. -/
def IsPosDef {k : Nat} (A : Matrix (Fin k) (Fin k) F) : Prop :=
  A.IsSymm ∧ ∀ v : Fin k → F, v ≠ 0 → 0 < Matrix.dotProduct v (A.mulVec v)

/-- The contract of the pair `dpotrf` / `dpotri` at the matrix `A`, in exact
arithmetic: if `A` is symmetric positive-definite, then both report status 0
and `dpotri`, run on the factor that `dpotrf` leaves for `A` with its lower
triangle zeroed, leaves the upper triangle of the inverse of `A`. -/
def LapackExactAt {k : Nat} (E : Routines F k) (A : Matrix (Fin k) (Fin k) F) : Prop :=
  IsPosDef A →
    (E.dpotrf (zeroLower A)).2 = 0 ∧ (E.dpotri (E.dpotrf (zeroLower A)).1).2 = 0 ∧
    ∃ M : Matrix (Fin k) (Fin k) F, M * A = 1 ∧
      ∀ i j, i ≤ j → (E.dpotri (E.dpotrf (zeroLower A)).1).1 i j = M i j

end Propose

/-! ## Example inputs -/

/-- Example log-posterior: a standard normal in the first coordinate. -/
def exLogPost : List ℚ → Option ℚ := fun v => some (-(vget v 0) ^ 2)

/-- Example draws. -/
def exDraws : SliceDraws ℚ :=
  { rexp := 1, runif := fun t a b => if t = 1 then a + (b - a) * (9 / 10) else a + (b - a) / 2 }

/-- Example result: the run of `uni_slice exLogPost exDraws [1, 5] 1 4 0 (-10) 10`. -/
def exSliceOut : SliceOut ℚ :=
  { g := [4 / 5, 5], stepEvals := 0, iters := 2, rejected := [[13 / 5, 5]],
    trace := [RngEvent.acquire, RngEvent.draw, RngEvent.draw, RngEvent.release,
      RngEvent.draw, RngEvent.draw] }

/-- Example log-posterior that is NaN where the first coordinate is negative
(as the logarithm of a negative number is) and `-x^2` elsewhere. -/
def exLogPostNaN : List ℚ → Option ℚ := fun v =>
  if vget v 0 < 0 then none else some (-(vget v 0) ^ 2)

/-- Example draws whose second uniform draw lies low in its range. -/
def exDrawsLow : SliceDraws ℚ :=
  { rexp := 1, runif := fun t a b => if t = 1 then a + (b - a) * (1 / 10) else a + (b - a) / 2 }

/-- Example result: the run of
`uni_slice exLogPostNaN exDrawsLow [1, 5] 1 4 0 (-10) 10`. -/
def exSliceOutNaN : SliceOut ℚ :=
  { g := [6 / 5, 5], stepEvals := 0, iters := 2, rejected := [[-3 / 5, 5]],
    trace := [RngEvent.acquire, RngEvent.draw, RngEvent.draw, RngEvent.release,
      RngEvent.draw, RngEvent.draw] }

/-- Square roots of the values the examples factor. -/
def exSqrt (a : ℚ) : ℚ :=
  if a = 9 then 3 else if a = 25 then 5 else if a = 1 / 9 then 1 / 3 else 1

/-- Example external routines for `k = 1`: `dpotrf` reports status 1 on a
non-positive entry and leaves it in place, and otherwise stores the square root
(exact on the values the examples factor); `dpotri` reports status 1 on a zero
factor and otherwise stores the inverse of its square; `log` is a stand-in, the
normal draw is 1 and `rgamma(a, s)` returns `s`. -/
def exRoutines : Routines ℚ 1 :=
  { dpotrf := fun A => if A 0 0 ≤ 0 then (A, 1) else (fun _ _ => exSqrt (A 0 0), 0)
    dpotri := fun U => if U 0 0 = 0 then (U, 1) else (fun _ _ => 1 / (U 0 0) ^ 2, 0)
    log := fun a => a - 1
    rnorm := fun _ => 1
    rgamma := fun _ s => s }

/-- Example Gaussian family with identity link, response `y = (5, 6)`,
variance 2 and additive constant 7. -/
def exGauss : Family Unit Unit (Fin 2 → ℚ) ℚ 2 :=
  { map2par := fun eta => eta ()
    loglik := fun _ mu => 7 - ∑ i, (![5, 6] i - mu i) ^ 2 / (2 * 2)
    weights := fun _ _ _ _ => 1 / 2
    score := fun _ _ mu i => (![5, 6] i - mu i) / 2 }

/-- Example non-fixed term with two observations and one coefficient. -/
def exTerm : Term ℚ 2 1 :=
  { fixed := 0, fxsp := 0, X := fun _ _ => 2, S := fun _ _ => 5, g := fun _ => 1,
    fit := fun _ => 2, tau2 := 1, b := 1, rank := 3 }

/-- Example predictor list. -/
def exEta : Unit → Fin 2 → ℚ := fun _ => ![3, 4]

/-- Example family whose weights change with the predictor: `1 / 2` at the
example predictor, `5 / 2` elsewhere. -/
def exVarying : Family Unit Unit (Fin 2 → ℚ) ℚ 2 :=
  { map2par := fun eta => eta ()
    loglik := fun _ mu => 7 - ∑ i, (![5, 6] i - mu i) ^ 2 / (2 * 2)
    weights := fun _ _ mu _ => if mu 0 = 3 then 1 / 2 else 5 / 2
    score := fun _ _ mu i => (![5, 6] i - mu i) / 2 }

/-- Example fixed term whose design matrix is zero. -/
def exTermSingular : Term ℚ 2 1 :=
  { fixed := 1, fxsp := 0, X := fun _ _ => 0, S := fun _ _ => 5, g := fun _ => 1,
    fit := fun _ => 0, tau2 := 1, b := 1, rank := 3 }

/-- Example routines that leave the same arrays as `exRoutines` but always
report status 7. -/
def exRoutinesFailing : Routines ℚ 1 :=
  { exRoutines with
    dpotrf := fun A => ((exRoutines.dpotrf A).1, 7)
    dpotri := fun U => ((exRoutines.dpotri U).1, 7) }

/-- Example design matrix with independent columns. -/
def exDesign : Matrix (Fin 2) (Fin 2) ℚ := Matrix.of ![![1, 3], ![0, 4]]

/-- Example external routines for `k = 2`, exact on the example fixed term:
`dpotrf` (which reads the upper triangle only) maps the upper triangle of
`(1 3; 3 25)` to the factor `(1 3; 0 4)` and the upper triangle of its inverse
`(25/16 -3/16; -3/16 1/16)` to the factor `(5/4 -3/20; 0 1/5)`; `dpotri` maps the
factor `(1 3; 0 4)` to the upper triangle of the inverse. The strictly lower
triangle is left as it was, and any other input is reported as a failure.
The normal draws are `(1, 2)`. -/
def exRoutinesPlane : Routines ℚ 2 :=
  { dpotrf := fun A =>
      if A 0 0 = 1 ∧ A 0 1 = 3 ∧ A 1 1 = 25 then
        (Matrix.of ![![1, 3], ![A 1 0, 4]], 0)
      else if A 0 0 = 25 / 16 ∧ A 0 1 = -3 / 16 ∧ A 1 1 = 1 / 16 then
        (Matrix.of ![![5 / 4, -3 / 20], ![A 1 0, 1 / 5]], 0)
      else (A, 1)
    dpotri := fun U =>
      if U 0 0 = 1 ∧ U 0 1 = 3 ∧ U 1 1 = 4 then
        (Matrix.of ![![25 / 16, -3 / 16], ![U 1 0, 1 / 16]], 0)
      else (U, 1)
    log := fun a => a - 1
    rnorm := ![1, 2]
    rgamma := fun _ s => s }

/-- Example Gaussian family with identity link, response `y = (5, 7)`,
variance 1 and additive constant 7. -/
def exGaussUnit : Family Unit Unit (Fin 2 → ℚ) ℚ 2 :=
  { map2par := fun eta => eta ()
    loglik := fun _ mu => 7 - ∑ i, (![5, 7] i - mu i) ^ 2 / (2 * 1)
    weights := fun _ _ _ _ => 1 / 1
    score := fun _ _ mu i => (![5, 7] i - mu i) / 1 }

/-- Example fixed term with two observations and two coefficients; `fit = X g`. -/
def exTermPlane : Term ℚ 2 2 :=
  { fixed := 1, fxsp := 0, X := exDesign, S := 0, g := ![1, 1], fit := ![4, 4],
    tau2 := 1, b := 1, rank := 3 }

/-- Example predictor list for the term with two coefficients. -/
def exEtaPlane : Unit → Fin 2 → ℚ := fun _ => ![5, 6]

/-- Working residual `z2 = fit + score / W` of the example fixed term. -/
def exZ2 : Fin 2 → ℚ := fun i =>
  exTermPlane.fit i + exGaussUnit.score () () (exGaussUnit.map2par exEtaPlane) i /
    exGaussUnit.weights () () (exGaussUnit.map2par exEtaPlane) i

/-- Transformed noise of the example fixed term: the factor of the inverse
precision matrix, transposed, applied to the normal draws. -/
def exNoise : Fin 2 → ℚ := fun a =>
  ∑ b, (exRoutinesPlane.dpotrf (exRoutinesPlane.dpotri (exRoutinesPlane.dpotrf (zeroLower
    (precisionMatrix exTermPlane.fixed exTermPlane.X
      (exGaussUnit.weights () () (exGaussUnit.map2par exEtaPlane))
      exTermPlane.S exTermPlane.tau2))).1).1).1
    b a * exRoutinesPlane.rnorm b

section SliceProofs
variable {F : Type} [LinearOrderedField F]

theorem vget_set_self (v : List F) (jj : Nat) (a : F) (h : jj < v.length) :
    vget (v.set jj a) jj = a := by
  simp [vget, List.getD_eq_getElem?_getD, h]

theorem vget_set_ne (v : List F) (jj i : Nat) (a : F) (h : i ≠ jj) :
    vget (v.set jj a) i = vget v i := by
  simp [vget, List.getD_eq_getElem?_getD, List.getElem?_set_ne (Ne.symm h)]

theorem shrinkLoop_succ (logPost : List F → Option F) (runif : Nat → F → F → F) (jj : Nat)
    (x0 : F) (logy : Option F) (fuel t : Nat) (g gL gR : List F) (rej : List (List F)) :
    shrinkLoop logPost runif jj x0 logy (fuel + 1) t g gL gR rej =
      if geD (logPost (g.set jj (runif t (vget gL jj) (vget gR jj)))) logy = true then
        some (g.set jj (runif t (vget gL jj) (vget gR jj)), rej)
      else
        shrinkLoop logPost runif jj x0 logy fuel (t + 1)
          (g.set jj (runif t (vget gL jj) (vget gR jj)))
          (if vget (g.set jj (runif t (vget gL jj) (vget gR jj))) jj > x0 then gL
            else gL.set jj (vget (g.set jj (runif t (vget gL jj) (vget gR jj))) jj))
          (if vget (g.set jj (runif t (vget gL jj) (vget gR jj))) jj > x0 then
            gR.set jj (vget (g.set jj (runif t (vget gL jj) (vget gR jj))) jj) else gR)
          (rej ++ [g.set jj (runif t (vget gL jj) (vget gR jj))]) := by
  simp only [shrinkLoop]
  by_cases h : geD (logPost (g.set jj (runif t (vget gL jj) (vget gR jj)))) logy = true
  · simp [h]
  · simp [h]

theorem shrinkLoop_frame (logPost : List F → Option F) (runif : Nat → F → F → F) (jj : Nat)
    (x0 : F) (logy : Option F) (fuel : Nat) :
    ∀ (t : Nat) (g gL gR : List F) (rej : List (List F)) (g1 : List F) (rej1 : List (List F)),
      shrinkLoop logPost runif jj x0 logy fuel t g gL gR rej = some (g1, rej1) →
      g1.length = g.length ∧ ∀ i, i ≠ jj → g1[i]? = g[i]? := by
  induction fuel with
  | zero => intro t g gL gR rej g1 rej1 h; simp [shrinkLoop] at h
  | succ fuel ih =>
    intro t g gL gR rej g1 rej1 h
    rw [shrinkLoop_succ] at h
    split at h
    · simp only [Option.some.injEq, Prod.mk.injEq] at h
      obtain ⟨rfl, -⟩ := h
      exact ⟨by simp, fun i hi => List.getElem?_set_ne (Ne.symm hi)⟩
    · obtain ⟨h1, h2⟩ := ih _ _ _ _ _ _ _ h
      refine ⟨by simpa using h1, fun i hi => ?_⟩
      rw [h2 i hi, List.getElem?_set_ne (Ne.symm hi)]

theorem shrinkLoop_slice (logPost : List F → Option F) (runif : Nat → F → F → F) (jj : Nat)
    (x0 : F) (logy : Option F) (fuel : Nat) :
    ∀ (t : Nat) (g gL gR : List F) (rej : List (List F)) (g1 : List F) (rej1 : List (List F)),
      shrinkLoop logPost runif jj x0 logy fuel t g gL gR rej = some (g1, rej1) →
      (∀ c ∈ rej, geD (logPost c) logy = false) →
      geD (logPost g1) logy = true ∧ ∀ c ∈ rej1, geD (logPost c) logy = false := by
  induction fuel with
  | zero => intro t g gL gR rej g1 rej1 h; simp [shrinkLoop] at h
  | succ fuel ih =>
    intro t g gL gR rej g1 rej1 h hrej
    rw [shrinkLoop_succ] at h
    split at h
    · rename_i hacc
      simp only [Option.some.injEq, Prod.mk.injEq] at h
      obtain ⟨rfl, rfl⟩ := h
      exact ⟨hacc, hrej⟩
    · rename_i hacc
      refine ih _ _ _ _ _ _ _ h ?_
      intro c hc
      rcases List.mem_append.mp hc with hc | hc
      · exact hrej c hc
      · rw [List.mem_singleton.mp hc]
        exact Bool.eq_false_iff.mpr hacc

/-- What the accepting comparison says: both sides are numbers and the left
one is at least the right one. -/
theorem geD_eq_true (a b : Option F) (h : geD a b = true) :
    ∃ x y, a = some x ∧ b = some y ∧ x ≥ y := by
  cases a with
  | none => simp [geD] at h
  | some x =>
    cases b with
    | none => simp [geD] at h
    | some y => exact ⟨x, y, rfl, rfl, by simpa [geD] using h⟩

/-- What the rejecting comparison says for a candidate whose value is a number,
against a threshold that is a number. -/
theorem geD_eq_false_some (x y : F) (h : geD (some x) (some y) = false) : x < y := by
  simpa [geD] using h

theorem shrinkLoop_bounds (logPost : List F → Option F) (runif : Nat → F → F → F) (jj : Nat)
    (x0 : F) (logy : Option F) (lower upper : F)
    (hr : ∀ t a b, a ≤ b → a ≤ runif t a b ∧ runif t a b ≤ b) (fuel : Nat) :
    ∀ (t : Nat) (g gL gR : List F) (rej : List (List F)) (g1 : List F) (rej1 : List (List F)),
      shrinkLoop logPost runif jj x0 logy fuel t g gL gR rej = some (g1, rej1) →
      jj < g.length → jj < gL.length → jj < gR.length →
      lower ≤ vget gL jj → vget gL jj ≤ x0 → x0 ≤ vget gR jj → vget gR jj ≤ upper →
      lower ≤ vget g1 jj ∧ vget g1 jj ≤ upper := by
  induction fuel with
  | zero => intro t g gL gR rej g1 rej1 h; simp [shrinkLoop] at h
  | succ fuel ih =>
    intro t g gL gR rej g1 rej1 h hg hgL hgR h1 h2 h3 h4
    rw [shrinkLoop_succ] at h
    obtain ⟨hd1, hd2⟩ := hr t (vget gL jj) (vget gR jj) (le_trans h2 h3)
    have hv : vget (g.set jj (runif t (vget gL jj) (vget gR jj))) jj
        = runif t (vget gL jj) (vget gR jj) := vget_set_self g jj _ hg
    split at h
    · simp only [Option.some.injEq, Prod.mk.injEq] at h
      obtain ⟨rfl, -⟩ := h
      rw [hv]
      exact ⟨le_trans h1 hd1, le_trans hd2 h4⟩
    · rw [hv] at h
      by_cases hx : runif t (vget gL jj) (vget gR jj) > x0
      · simp only [hx, if_true] at h
        refine ih _ _ _ _ _ _ _ h (by simpa using hg) hgL (by simpa using hgR) h1 h2 ?_ ?_
        · rw [vget_set_self gR jj _ hgR]; exact le_of_lt hx
        · rw [vget_set_self gR jj _ hgR]; exact le_trans hd2 h4
      · simp only [hx, if_false] at h
        refine ih _ _ _ _ _ _ _ h (by simpa using hg) (by simpa using hgL) hgR ?_ ?_ h3 h4
        · rw [vget_set_self gL jj _ hgL]; exact le_trans h1 hd1
        · rw [vget_set_self gL jj _ hgL]; exact le_of_not_gt hx

theorem stepLeft_spec (logPost : List F → Option F) (jj : Nat) (w lower : F) (logy : Option F) (hw : 0 ≤ w)
    (J : Nat) :
    ∀ (gL : List F) (c : Nat), jj < gL.length →
      (stepLeft logPost jj w lower logy J gL c).1.length = gL.length ∧
      vget (stepLeft logPost jj w lower logy J gL c).1 jj ≤ vget gL jj := by
  induction J with
  | zero => intro gL c _; simp [stepLeft]
  | succ J ih =>
    intro gL c hl
    simp only [stepLeft]
    split
    · simp
    · split
      · simp
      · obtain ⟨e1, e2⟩ := ih (gL.set jj (vget gL jj - w)) (c + 1) (by simpa using hl)
        refine ⟨by simpa using e1, le_trans e2 ?_⟩
        rw [vget_set_self gL jj _ hl]
        linarith

theorem stepRight_spec (logPost : List F → Option F) (jj : Nat) (w upper : F) (logy : Option F) (hw : 0 ≤ w)
    (K : Nat) :
    ∀ (gR : List F) (c : Nat), jj < gR.length →
      (stepRight logPost jj w upper logy K gR c).1.length = gR.length ∧
      vget gR jj ≤ vget (stepRight logPost jj w upper logy K gR c).1 jj := by
  induction K with
  | zero => intro gR c _; simp [stepRight]
  | succ K ih =>
    intro gR c hl
    simp only [stepRight]
    split
    · simp
    · split
      · simp
      · obtain ⟨e1, e2⟩ := ih (gR.set jj (vget gR jj + w)) (c + 1) (by simpa using hl)
        refine ⟨by simpa using e1, le_trans ?_ e2⟩
        rw [vget_set_self gR jj _ hl]
        linarith

/-- A returning call of `uni_slice` is a returning run of its shrinkage loop,
started from the input `g` with the stepped-out and clamped end points. -/
theorem uni_slice_some [FloorRing F] (logPost : List F → Option F) (rng : SliceDraws F) (g : List F)
    (j : Nat) (w : F) (M : Int) (lower upper : F) (fuel : Nat) (r : SliceOut F)
    (hret : uni_slice logPost rng g j w M lower upper fuel = some r) :
    ∃ (t0 : Nat) (sL sR : List F × Nat),
      sL = (if M + 1 > 1 then stepLeft logPost (j - 1) w lower ((logPost g).map (fun v => v - rng.rexp))
              (⌊rng.runif 1 0 ((M + 1 : Int) : F)⌋).toNat
              (g.set (j - 1) (vget g (j - 1) - rng.runif 0 0 w)) 0
            else (g.set (j - 1) (vget g (j - 1) - rng.runif 0 0 w), 0)) ∧
      sR = (if M + 1 > 1 then stepRight logPost (j - 1) w upper ((logPost g).map (fun v => v - rng.rexp))
              ((M + 1 - 1) - ⌊rng.runif 1 0 ((M + 1 : Int) : F)⌋).toNat
              (g.set (j - 1) (vget g (j - 1) + (w - rng.runif 0 0 w))) 0
            else (g.set (j - 1) (vget g (j - 1) + (w - rng.runif 0 0 w)), 0)) ∧
      shrinkLoop logPost rng.runif (j - 1) (vget g (j - 1)) ((logPost g).map (fun v => v - rng.rexp)) fuel t0 g
        (if vget sL.1 (j - 1) < lower then sL.1.set (j - 1) lower else sL.1)
        (if vget sR.1 (j - 1) > upper then sR.1.set (j - 1) upper else sR.1) []
        = some (r.g, r.rejected) ∧
      r.stepEvals = sL.2 + sR.2 ∧ r.iters = r.rejected.length + 1 ∧
      r.trace = ([RngEvent.acquire, RngEvent.draw, RngEvent.draw, RngEvent.release] ++
        (if M + 1 > 1 then [RngEvent.acquire, RngEvent.draw, RngEvent.release] else [])) ++
        List.replicate (r.rejected.length + 1) RngEvent.draw := by
  unfold uni_slice at hret
  simp only [] at hret
  split at hret
  · exact absurd hret (by simp)
  · rename_i g1 rej hs
    simp only [Option.some.injEq] at hret
    subst hret
    exact ⟨_, _, _, rfl, rfl, hs, rfl, rfl, rfl⟩

/-- More fuel does not change the result of a shrinkage loop that returned. -/
theorem shrinkLoop_fuel_mono (logPost : List F → Option F) (runif : Nat → F → F → F) (jj : Nat)
    (x0 : F) (logy : Option F) (fuel : Nat) :
    ∀ (t : Nat) (g gL gR : List F) (rej : List (List F)) (res : List F × List (List F)),
      shrinkLoop logPost runif jj x0 logy fuel t g gL gR rej = some res →
      shrinkLoop logPost runif jj x0 logy (fuel + 1) t g gL gR rej = some res := by
  induction fuel with
  | zero => intro t g gL gR rej res h; simp [shrinkLoop] at h
  | succ fuel ih =>
    intro t g gL gR rej res h
    rw [shrinkLoop_succ] at h
    rw [shrinkLoop_succ]
    split
    · rename_i hacc
      rw [if_pos hacc] at h
      exact h
    · rename_i hacc
      rw [if_neg hacc] at h
      exact ih _ _ _ _ _ _ h

/-- More fuel does not change the result of a call of `uni_slice` that
returned: "the call returns `r`" does not depend on the fuel. -/
theorem uni_slice_fuel_mono [FloorRing F] (logPost : List F → Option F) (rng : SliceDraws F)
    (g : List F) (j : Nat) (w : F) (M : Int) (lower upper : F) (fuel : Nat) (r : SliceOut F)
    (hret : uni_slice logPost rng g j w M lower upper fuel = some r) :
    uni_slice logPost rng g j w M lower upper (fuel + 1) = some r := by
  unfold uni_slice at hret ⊢
  simp only [] at hret ⊢
  split at hret
  · exact absurd hret (by simp)
  · rename_i g1 rej hs
    rw [shrinkLoop_fuel_mono _ _ _ _ _ _ _ _ _ _ _ _ hs]
    exact hret

/-- C2: a returning call of `uni_slice` started inside `[lower, upper]` with
`w > 0`, whose uniform draws honour their range, returns coordinate `j` inside
`[lower, upper]`. -/
theorem uni_slice_within_bounds [FloorRing F] (logPost : List F → Option F) (rng : SliceDraws F)
    (g : List F) (j : Nat) (w : F) (M : Int) (lower upper : F) (fuel : Nat) (r : SliceOut F)
    (hj1 : 1 ≤ j) (hjk : j ≤ g.length)
    (hlo : lower ≤ vget g (j - 1)) (hup : vget g (j - 1) ≤ upper) (hw : 0 < w)
    (hr : ∀ t a b, a ≤ b → a ≤ rng.runif t a b ∧ rng.runif t a b ≤ b)
    (hret : uni_slice logPost rng g j w M lower upper fuel = some r) :
    lower ≤ vget r.g (j - 1) ∧ vget r.g (j - 1) ≤ upper := by
  obtain ⟨t0, sL, sR, hsL, hsR, hs, -, -, -⟩ :=
    uni_slice_some logPost rng g j w M lower upper fuel r hret
  have hjj : j - 1 < g.length := by omega
  obtain ⟨hu0, hu1⟩ := hr 0 0 w (le_of_lt hw)
  have hL : sL.1.length = g.length ∧ vget sL.1 (j - 1) ≤ vget g (j - 1) := by
    have hb : vget (g.set (j - 1) (vget g (j - 1) - rng.runif 0 0 w)) (j - 1) ≤ vget g (j - 1) := by
      rw [vget_set_self g _ _ hjj]; linarith
    rw [hsL]
    split
    · obtain ⟨e1, e2⟩ := stepLeft_spec logPost (j - 1) w lower ((logPost g).map (fun v => v - rng.rexp))
        (le_of_lt hw) (⌊rng.runif 1 0 ((M + 1 : Int) : F)⌋).toNat
        (g.set (j - 1) (vget g (j - 1) - rng.runif 0 0 w)) 0 (by simpa using hjj)
      exact ⟨by simpa using e1, le_trans e2 hb⟩
    · exact ⟨by simp, hb⟩
  have hR : sR.1.length = g.length ∧ vget g (j - 1) ≤ vget sR.1 (j - 1) := by
    have hb : vget g (j - 1) ≤
        vget (g.set (j - 1) (vget g (j - 1) + (w - rng.runif 0 0 w))) (j - 1) := by
      rw [vget_set_self g _ _ hjj]; linarith
    rw [hsR]
    split
    · obtain ⟨e1, e2⟩ := stepRight_spec logPost (j - 1) w upper ((logPost g).map (fun v => v - rng.rexp))
        (le_of_lt hw) ((M + 1 - 1) - ⌊rng.runif 1 0 ((M + 1 : Int) : F)⌋).toNat
        (g.set (j - 1) (vget g (j - 1) + (w - rng.runif 0 0 w))) 0 (by simpa using hjj)
      exact ⟨by simpa using e1, le_trans hb e2⟩
    · exact ⟨by simp, hb⟩
  have hjL : j - 1 < sL.1.length := by rw [hL.1]; exact hjj
  have hjR : j - 1 < sR.1.length := by rw [hR.1]; exact hjj
  refine shrinkLoop_bounds logPost rng.runif (j - 1) _ _ lower upper hr fuel _ _ _ _ _ _ _ hs
    hjj ?_ ?_ ?_ ?_ ?_ ?_
  · split
    · simpa using hjL
    · exact hjL
  · split
    · simpa using hjR
    · exact hjR
  · split
    · rw [vget_set_self _ _ _ hjL]
    · rename_i h; exact le_of_not_lt h
  · split
    · rw [vget_set_self _ _ _ hjL]; exact hlo
    · exact hL.2
  · split
    · rw [vget_set_self _ _ _ hjR]; exact hup
    · exact hR.2
  · split
    · rw [vget_set_self _ _ _ hjR]
    · rename_i h; exact le_of_not_lt h

/-- C3: a returning call of `uni_slice` on a vector of length `k` with
`1 ≤ j ≤ k` returns a vector of the same length that agrees with the input at
every index other than `j - 1`. -/
theorem uni_slice_frame [FloorRing F] (logPost : List F → Option F) (rng : SliceDraws F)
    (g : List F) (j : Nat) (w : F) (M : Int) (lower upper : F) (fuel : Nat) (r : SliceOut F)
    (hj1 : 1 ≤ j) (hjk : j ≤ g.length)
    (hret : uni_slice logPost rng g j w M lower upper fuel = some r) :
    r.g.length = g.length ∧ j - 1 < r.g.length ∧ ∀ i, i ≠ j - 1 → r.g[i]? = g[i]? := by
  obtain ⟨t0, sL, sR, -, -, hs, -, -, -⟩ :=
    uni_slice_some logPost rng g j w M lower upper fuel r hret
  obtain ⟨h1, h2⟩ := shrinkLoop_frame logPost rng.runif (j - 1) _ _ fuel _ _ _ _ _ _ _ hs
  exact ⟨h1, by omega, h2⟩

/-- C8 (amended): in a returning call of `uni_slice`, `logPost` is a number
(not NaN) at the initial `g` and at the returned vector, the returned vector
lies in the slice, `logPost g1 ≥ logy` with `logy = logPost g - e`, and every
candidate of an earlier iteration of the shrinkage loop failed the test
`logPost ≥ logy`: its `logPost` was NaN or a number below `logy`. -/
theorem uni_slice_in_slice [FloorRing F] (logPost : List F → Option F) (rng : SliceDraws F)
    (g : List F) (j : Nat) (w : F) (M : Int) (lower upper : F) (fuel : Nat) (r : SliceOut F)
    (hret : uni_slice logPost rng g j w M lower upper fuel = some r) :
    ∃ v0 v1, logPost g = some v0 ∧ logPost r.g = some v1 ∧ v1 ≥ v0 - rng.rexp ∧
      (∀ c ∈ r.rejected, geD (logPost c) (some (v0 - rng.rexp)) = false) ∧
      (∀ c ∈ r.rejected, logPost c = none ∨ ∃ v, logPost c = some v ∧ v < v0 - rng.rexp) ∧
      r.iters = r.rejected.length + 1 := by
  obtain ⟨t0, sL, sR, -, -, hs, -, hit, -⟩ :=
    uni_slice_some logPost rng g j w M lower upper fuel r hret
  obtain ⟨h1, h2⟩ := shrinkLoop_slice logPost rng.runif (j - 1) _ _ fuel _ _ _ _ _ _ _ hs
    (by simp)
  obtain ⟨v1, vy, e1, ey, hge⟩ := geD_eq_true _ _ h1
  obtain ⟨v0, e0, rfl⟩ := Option.map_eq_some'.mp ey
  rw [e0] at h2
  refine ⟨v0, v1, e0, e1, hge, h2, fun c hc => ?_, hit⟩
  cases hlc : logPost c with
  | none => exact Or.inl rfl
  | some v =>
    have := h2 c hc
    rw [hlc] at this
    exact Or.inr ⟨v, rfl, geD_eq_false_some v _ this⟩

/-- The example run: one candidate is rejected, the second is accepted. -/
theorem exSliceOut_run :
    uni_slice exLogPost exDraws [1, 5] 1 4 0 (-10) 10 5 = some exSliceOut := by
  norm_num [uni_slice, shrinkLoop, exLogPost, exDraws, exSliceOut, vget, List.replicate, geD]

/-- The example draws honour their range. -/
theorem exDraws_range (t : Nat) (a b : ℚ) (hab : a ≤ b) :
    a ≤ exDraws.runif t a b ∧ exDraws.runif t a b ≤ b := by
  by_cases ht : t = 1
  · simp only [exDraws, ht, if_true]; constructor <;> linarith
  · simp only [exDraws, ht, if_false]; constructor <;> linarith

/-- Witness for C2: the example run starts inside `[-10, 10]` and ends there. -/
theorem uni_slice_within_bounds_witness :
    uni_slice exLogPost exDraws [1, 5] 1 4 0 (-10) 10 5 = some exSliceOut ∧
      (-10 : ℚ) ≤ vget exSliceOut.g (1 - 1) ∧ vget exSliceOut.g (1 - 1) ≤ (10 : ℚ) :=
  ⟨exSliceOut_run,
    uni_slice_within_bounds exLogPost exDraws [1, 5] 1 4 0 (-10) 10 5 exSliceOut (by norm_num)
      (by norm_num) (by norm_num [vget]) (by norm_num [vget]) (by norm_num) exDraws_range
      exSliceOut_run⟩

/-- Witness for C3: the example run keeps the length and the second coordinate. -/
theorem uni_slice_frame_witness :
    uni_slice exLogPost exDraws [1, 5] 1 4 0 (-10) 10 5 = some exSliceOut ∧
      (exSliceOut.g.length = ([1, 5] : List ℚ).length ∧ 1 - 1 < exSliceOut.g.length ∧
        ∀ i, i ≠ 1 - 1 → exSliceOut.g[i]? = ([1, 5] : List ℚ)[i]?) :=
  ⟨exSliceOut_run,
    uni_slice_frame exLogPost exDraws [1, 5] 1 4 0 (-10) 10 5 exSliceOut (by norm_num)
      (by norm_num) exSliceOut_run⟩

/-- The example run with a NaN candidate: the first candidate, `-3 / 5`, has a
NaN log-posterior and is rejected; the second, `6 / 5`, is accepted. -/
theorem exSliceOutNaN_run :
    uni_slice exLogPostNaN exDrawsLow [1, 5] 1 4 0 (-10) 10 5 = some exSliceOutNaN := by
  norm_num [uni_slice, shrinkLoop, exLogPostNaN, exDrawsLow, exSliceOutNaN, vget,
    List.replicate, geD]

/-- C8 counterexample: the example call returns after rejecting a candidate
whose `logPost` is NaN, so that candidate did not have `logPost < logy`. -/
theorem uni_slice_rejects_nan_candidate :
    uni_slice exLogPostNaN exDrawsLow [1, 5] 1 4 0 (-10) 10 5 = some exSliceOutNaN ∧
      ∃ c ∈ exSliceOutNaN.rejected, exLogPostNaN c = none ∧
        ltD (exLogPostNaN c)
          ((exLogPostNaN [1, 5]).map (fun v => v - exDrawsLow.rexp)) = false := by
  refine ⟨exSliceOutNaN_run, [-3 / 5, 5], by simp [exSliceOutNaN], ?_, ?_⟩
  · norm_num [exLogPostNaN, vget]
  · norm_num [exLogPostNaN, vget, ltD]

/-- Witness for C8 (amended): the example run with a NaN candidate. -/
theorem uni_slice_in_slice_witness :
    uni_slice exLogPostNaN exDrawsLow [1, 5] 1 4 0 (-10) 10 5 = some exSliceOutNaN ∧
      ∃ v0 v1, exLogPostNaN [1, 5] = some v0 ∧ exLogPostNaN exSliceOutNaN.g = some v1 ∧
        v1 ≥ v0 - exDrawsLow.rexp ∧
        (∀ c ∈ exSliceOutNaN.rejected,
          geD (exLogPostNaN c) (some (v0 - exDrawsLow.rexp)) = false) ∧
        (∀ c ∈ exSliceOutNaN.rejected, exLogPostNaN c = none ∨
          ∃ v, exLogPostNaN c = some v ∧ v < v0 - exDrawsLow.rexp) ∧
        exSliceOutNaN.iters = exSliceOutNaN.rejected.length + 1 :=
  ⟨exSliceOutNaN_run,
    uni_slice_in_slice exLogPostNaN exDrawsLow [1, 5] 1 4 0 (-10) 10 5 exSliceOutNaN
      exSliceOutNaN_run⟩

end SliceProofs

/-! ## The proposal engine: lemmas and claims -/

section ProposeProofs

variable {F : Type} [LinearOrderedField F]

theorem quadForm_eq {k : Nat} (v : Fin k → F) (A : Matrix (Fin k) (Fin k) F) :
    quadForm v A = v ⬝ᵥ A *ᵥ v := by
  rw [Matrix.dotProduct_mulVec]
  simp [quadForm, Matrix.dotProduct, Matrix.vecMul]

theorem lapack_inverse {k : Nat} (E : Routines F k) (A : Matrix (Fin k) (Fin k) F)
    (hA : IsPosDef A) (hE : LapackExactAt E A) :
    ∃ M : Matrix (Fin k) (Fin k) F, M * A = 1 ∧ A * M = 1 ∧
      mirrorUpper (E.dpotri (E.dpotrf (zeroLower A)).1).1 = M := by
  obtain ⟨-, -, M, hM, hup⟩ := hE hA
  have hAM : A * M = 1 := (Matrix.mul_eq_one_comm).mp hM
  have hMt : Mᵀ = M := by
    have h1 : A * Mᵀ = 1 := by
      have := congrArg Matrix.transpose hM
      rw [Matrix.transpose_mul, hA.1.eq, Matrix.transpose_one] at this
      exact this
    have h2 : Mᵀ * A = 1 := (Matrix.mul_eq_one_comm).mp h1
    calc Mᵀ = Mᵀ * (A * M) := by rw [hAM, Matrix.mul_one]
      _ = (Mᵀ * A) * M := by rw [Matrix.mul_assoc]
      _ = M := by rw [h2, Matrix.one_mul]
  refine ⟨M, hM, hAM, ?_⟩
  ext i j
  unfold mirrorUpper
  split
  · rename_i h
    rw [hup j i (le_of_lt h)]
    exact congrFun (congrFun hMt i) j
  · rename_i h
    exact hup i j (le_of_not_lt h)

/-- Completing the square. -/
theorem quad_shift {k : Nat} (P : Matrix (Fin k) (Fin k) F) (hP : P.IsSymm)
    (mu c v : Fin k → F) (hmu : P *ᵥ mu = c) :
    quadForm (fun j => v j - mu j) P = v ⬝ᵥ P *ᵥ v - 2 * (v ⬝ᵥ c) + mu ⬝ᵥ c := by
  have h0 : (fun j => v j - mu j) = v - mu := rfl
  have h1 : mu ⬝ᵥ P *ᵥ v = v ⬝ᵥ c := by
    rw [Matrix.dotProduct_mulVec, ← Matrix.mulVec_transpose, hP.eq, hmu, Matrix.dotProduct_comm]
  rw [quadForm_eq, h0, Matrix.mulVec_sub, Matrix.dotProduct_sub, Matrix.sub_dotProduct,
    Matrix.sub_dotProduct, hmu, h1]
  ring

theorem precisionMatrix_eq {n k : Nat} (fixed : Int) (X : Matrix (Fin n) (Fin k) F)
    (W : Fin n → F) (S : Matrix (Fin k) (Fin k) F) (tau2 : F) :
    precisionMatrix fixed X W S tau2 =
      Xᵀ * Matrix.diagonal W * X + (if fixed < 1 then (1 / tau2) • S else 0) := by
  ext a b
  have h1 : (Xᵀ * Matrix.diagonal W * X) a b = ∑ i, X i a * W i * X i b := by
    rw [Matrix.mul_apply]
    simp [Matrix.mul_diagonal]
  by_cases h : fixed < 1
  · simp [precisionMatrix, h, h1]
  · simp [precisionMatrix, h, h1]

theorem gram_quad {n k : Nat} (X : Matrix (Fin n) (Fin k) F) (W : Fin n → F) (v : Fin k → F) :
    v ⬝ᵥ (Xᵀ * Matrix.diagonal W * X) *ᵥ v = ∑ i, W i * (X *ᵥ v) i ^ 2 := by
  rw [← Matrix.mulVec_mulVec, ← Matrix.mulVec_mulVec, Matrix.dotProduct_mulVec,
    Matrix.vecMul_transpose]
  simp only [Matrix.dotProduct, Matrix.mulVec_diagonal]
  refine Finset.sum_congr rfl (fun i _ => ?_)
  ring

theorem precisionMatrix_quad {n k : Nat} (fixed : Int) (X : Matrix (Fin n) (Fin k) F)
    (W : Fin n → F) (S : Matrix (Fin k) (Fin k) F) (tau2 : F) (v : Fin k → F) :
    v ⬝ᵥ (precisionMatrix fixed X W S tau2) *ᵥ v =
      ∑ i, W i * (X *ᵥ v) i ^ 2 + (if fixed < 1 then 1 / tau2 * (v ⬝ᵥ S *ᵥ v) else 0) := by
  rw [precisionMatrix_eq, Matrix.add_mulVec, Matrix.dotProduct_add, gram_quad]
  by_cases h : fixed < 1
  · simp [h, Matrix.smul_mulVec_assoc]
  · simp [h]

theorem precisionMatrix_isSymm {n k : Nat} (fixed : Int) (X : Matrix (Fin n) (Fin k) F)
    (W : Fin n → F) (S : Matrix (Fin k) (Fin k) F) (tau2 : F) (hS : fixed < 1 → S.IsSymm) :
    (precisionMatrix fixed X W S tau2).IsSymm := by
  rw [precisionMatrix_eq]
  unfold Matrix.IsSymm
  by_cases h : fixed < 1
  · simp [h, Matrix.transpose_mul, Matrix.mul_assoc, (hS h).eq]
  · simp [h, Matrix.transpose_mul, Matrix.mul_assoc]

theorem gram_pos_iff {n k : Nat} (X : Matrix (Fin n) (Fin k) F) (W : Fin n → F)
    (hW : ∀ i, 0 < W i) (v : Fin k → F) : 0 < ∑ i, W i * (X *ᵥ v) i ^ 2 ↔ X *ᵥ v ≠ 0 := by
  constructor
  · intro h h0
    simp [h0] at h
  · intro h
    obtain ⟨i, hi⟩ : ∃ i, (X *ᵥ v) i ≠ 0 := by
      by_contra hc
      push_neg at hc
      exact h (funext hc)
    exact Finset.sum_pos' (fun j _ => mul_nonneg (le_of_lt (hW j)) (sq_nonneg _))
      ⟨i, Finset.mem_univ i, mul_pos (hW i) (by positivity)⟩

theorem dot_design {n k : Nat} (X : Matrix (Fin n) (Fin k) F) (u : Fin n → F) (v : Fin k → F) :
    v ⬝ᵥ (fun a => ∑ i, X i a * u i) = ∑ i, (X *ᵥ v) i * u i := by
  have h : (fun a => ∑ i, X i a * u i) = Xᵀ *ᵥ u := by
    ext a
    simp [Matrix.mulVec, Matrix.dotProduct]
  rw [h, Matrix.dotProduct_mulVec, Matrix.vecMul_transpose]
  rfl

/-- For a Gaussian identity-link term, log-likelihood plus log-prior plus half
the proposal quadratic form does not depend on the point `v`. -/
theorem gaussian_balance {n k : Nat} (X : Matrix (Fin n) (Fin k) F)
    (S : Matrix (Fin k) (Fin k) F) (fixed : Int) (σ2 tau2 C : F) (hσ : σ2 ≠ 0)
    (y eo : Fin n → F)
    (hPs : (precisionMatrix fixed X (fun _ => 1 / σ2) S tau2).IsSymm)
    (mu : Fin k → F)
    (hmu : (precisionMatrix fixed X (fun _ => 1 / σ2) S tau2) *ᵥ mu
      = fun a => ∑ i, X i a * (1 / σ2) * (y i - eo i))
    (v : Fin k → F) :
    (C - ∑ i, (y i - (eo i + ∑ j, X i j * v j)) ^ 2 / (2 * σ2))
      + (if fixed < 1 then -(1 / 2) / tau2 * quadForm v S else 0)
      + 1 / 2 * quadForm (fun j => v j - mu j) (precisionMatrix fixed X (fun _ => 1 / σ2) S tau2)
    = C - (∑ i, (y i - eo i) ^ 2) / (2 * σ2)
      + 1 / 2 * (mu ⬝ᵥ fun a => ∑ i, X i a * (1 / σ2) * (y i - eo i)) := by
  have hc : (fun a => ∑ i, X i a * (1 / σ2) * (y i - eo i))
      = fun a => ∑ i, X i a * (1 / σ2 * (y i - eo i)) := by
    funext a
    exact Finset.sum_congr rfl (fun i _ => by ring)
  rw [quad_shift _ hPs mu _ v hmu, precisionMatrix_quad, hc, dot_design, quadForm_eq]
  have h1 : ∑ i, (y i - (eo i + ∑ j, X i j * v j)) ^ 2 / (2 * σ2)
      = (∑ i, (y i - eo i) ^ 2 - 2 * ∑ i, (X *ᵥ v) i * (y i - eo i) + ∑ i, (X *ᵥ v) i ^ 2)
        / (2 * σ2) := by
    rw [← Finset.sum_div, Finset.mul_sum, ← Finset.sum_sub_distrib, ← Finset.sum_add_distrib]
    congr 1
    refine Finset.sum_congr rfl (fun i _ => ?_)
    have : (X *ᵥ v) i = ∑ j, X i j * v j := rfl
    rw [this]
    ring
  have h2 : ∑ i, (X *ᵥ v) i * (1 / σ2 * (y i - eo i))
      = 1 / σ2 * ∑ i, (X *ᵥ v) i * (y i - eo i) := by
    rw [Finset.mul_sum]
    refine Finset.sum_congr rfl (fun i _ => ?_)
    ring
  have h3 : ∑ i, 1 / σ2 * (X *ᵥ v) i ^ 2 = 1 / σ2 * ∑ i, (X *ᵥ v) i ^ 2 := by
    rw [Finset.mul_sum]
  rw [h1, h2, h3]
  by_cases hf : fixed < 1
  · simp only [hf, if_true]
    field_simp
    ring
  · simp only [hf, if_false]
    field_simp
    ring

/-- C1: for a Gaussian family with identity link, `fit = X g`, and a
positive-definite precision matrix on which the factorization routines meet
their contract, the `alpha` returned by `do_propose` is exactly 0, for fixed
and for non-fixed terms and for every normal draw. -/
theorem do_propose_gaussian_alpha_zero {ι Resp Par : Type} [DecidableEq ι] {n k : Nat}
    (E : Routines F k) (family : Family ι Resp Par F n) (x : Term F n k) (response : Resp)
    (eta : ι → Fin n → F) (id : ι) (y : Fin n → F) (σ2 C : F)
    (hσ : 0 < σ2) (_hτ : 0 < x.tau2)
    (hll : ∀ e, family.loglik response (family.map2par e)
      = C - ∑ i, (y i - e id i) ^ 2 / (2 * σ2))
    (hW : ∀ e i, family.weights id response (family.map2par e) i = 1 / σ2)
    (hsc : ∀ e i, family.score id response (family.map2par e) i = (y i - e id i) / σ2)
    (hfit : ∀ i, x.fit i = ∑ j, x.X i j * x.g j)
    (hS : x.fixed < 1 → x.S.IsSymm)
    (hpd : ∀ v : Fin k → F, v ≠ 0 →
      0 < v ⬝ᵥ (precisionMatrix x.fixed x.X (fun _ => 1 / σ2) x.S x.tau2) *ᵥ v)
    (hE : LapackExactAt E (precisionMatrix x.fixed x.X (fun _ => 1 / σ2) x.S x.tau2)) :
    ∃ r, do_propose E family x response eta id = Except.ok r ∧ r.alpha = 0 := by
  have hσ0 : σ2 ≠ 0 := ne_of_gt hσ
  have hPs := precisionMatrix_isSymm x.fixed x.X (fun _ => 1 / σ2) x.S x.tau2 hS
  obtain ⟨M, -, hPM, hmir⟩ := lapack_inverse E _ ⟨hPs, hpd⟩ hE
  have hWf : ∀ e, family.weights id response (family.map2par e) = fun _ => 1 / σ2 :=
    fun e => funext (hW e)
  have hscf : ∀ e, family.score id response (family.map2par e) = fun i => (y i - e id i) / σ2 :=
    fun e => funext (hsc e)
  have hz2 : ∀ i, eta id i + (y i - eta id i) / σ2 / (1 / σ2) - (eta id i - x.fit i)
      = y i - (eta id i - x.fit i) := by
    intro i; field_simp
  have hz2b : ∀ a t yv : F, a + t + (yv - (a + t)) / σ2 / (1 / σ2) - (a + t - t) = yv - a := by
    intro a t yv; field_simp
  refine ⟨_, rfl, ?_⟩
  simp only [hll, hWf, hscf, hmir, Function.update_same, hz2]
  obtain ⟨g1, hg1⟩ : ∃ g1 : Fin k → F, ∀ a,
      (∑ b, (E.dpotrf (E.dpotri (E.dpotrf (zeroLower
        (precisionMatrix x.fixed x.X (fun _ => 1 / σ2) x.S x.tau2))).1).1).1 b a * E.rnorm b
      + ∑ b, M a b * ∑ i, x.X i b * (1 / σ2) * (y i - (eta id i - x.fit i))) = g1 a :=
    ⟨_, fun _ => rfl⟩
  simp only [hg1, hz2b]
  have hmu : (precisionMatrix x.fixed x.X (fun _ => 1 / σ2) x.S x.tau2) *ᵥ
      (fun j => ∑ b, M j b * ∑ i, x.X i b * (1 / σ2) * (y i - (eta id i - x.fit i)))
      = fun a => ∑ i, x.X i a * (1 / σ2) * (y i - (eta id i - x.fit i)) := by
    have h : (fun j => ∑ b, M j b * ∑ i, x.X i b * (1 / σ2) * (y i - (eta id i - x.fit i)))
        = M *ᵥ (fun a => ∑ i, x.X i a * (1 / σ2) * (y i - (eta id i - x.fit i))) := rfl
    rw [h, Matrix.mulVec_mulVec, hPM, Matrix.one_mulVec]
  have hcur : ∑ i, (y i - eta id i) ^ 2 / (2 * σ2)
      = ∑ i, (y i - ((eta id i - x.fit i) + ∑ j, x.X i j * x.g j)) ^ 2 / (2 * σ2) := by
    refine Finset.sum_congr rfl (fun i _ => ?_)
    rw [← hfit i]
    ring
  rw [hcur]
  have B1 := gaussian_balance x.X x.S x.fixed σ2 x.tau2 C hσ0 y (fun i => eta id i - x.fit i)
    hPs _ hmu g1
  have B2 := gaussian_balance x.X x.S x.fixed σ2 x.tau2 C hσ0 y (fun i => eta id i - x.fit i)
    hPs _ hmu x.g
  simp only [] at B1 B2
  linear_combination B1 - B2

theorem design_injective {n k : Nat} (X : Matrix (Fin n) (Fin k) F)
    (hX : IsUnit (Xᵀ * X).det) (v : Fin k → F) (hv : X *ᵥ v = 0) : v = 0 := by
  have h1 : (Xᵀ * X) *ᵥ v = 0 := by
    rw [← Matrix.mulVec_mulVec, hv, Matrix.mulVec_zero]
  exact Matrix.eq_zero_of_mulVec_eq_zero (IsUnit.ne_zero hX) h1

/-- C6: for a fixed term with strictly positive weights `W`, an invertible
`X'X`, and factorization routines that meet their contract on `P`, the proposal
mean (the returned `g` minus the transformed noise) is the weighted
least-squares solution of the working residual `z2 = fit + score / W`; it is
the returned `g` itself when the normal draws are zero, and it is the ordinary
least-squares solution when all weights equal one constant `c > 0`. -/
theorem do_propose_fixed_mean_wls {ι Resp Par : Type} [DecidableEq ι] {n k : Nat}
    (E : Routines F k) (family : Family ι Resp Par F n) (x : Term F n k) (response : Resp)
    (eta : ι → Fin n → F) (id : ι) (W sc z2 : Fin n → F) (noise : Fin k → F)
    (hWdef : W = family.weights id response (family.map2par eta))
    (hscdef : sc = family.score id response (family.map2par eta))
    (hz2def : z2 = fun i => x.fit i + sc i / W i)
    (hnoise : noise = fun a => ∑ b, (E.dpotrf (E.dpotri (E.dpotrf (zeroLower
      (precisionMatrix x.fixed x.X W x.S x.tau2))).1).1).1 b a * E.rnorm b)
    (hfixed : 1 ≤ x.fixed)
    (hW : ∀ i, 0 < W i)
    (hX : IsUnit (x.Xᵀ * x.X).det)
    (hE : LapackExactAt E (precisionMatrix x.fixed x.X W x.S x.tau2)) :
    ∃ r, do_propose E family x response eta id = Except.ok r ∧
      (fun a => r.g a - noise a)
        = (x.Xᵀ * Matrix.diagonal W * x.X)⁻¹ *ᵥ ((x.Xᵀ * Matrix.diagonal W) *ᵥ z2) ∧
      ((∀ j, E.rnorm j = 0) →
        r.g = (x.Xᵀ * Matrix.diagonal W * x.X)⁻¹ *ᵥ ((x.Xᵀ * Matrix.diagonal W) *ᵥ z2)) ∧
      (∀ c : F, 0 < c → (∀ i, W i = c) →
        (fun a => r.g a - noise a) = (x.Xᵀ * x.X)⁻¹ *ᵥ (x.Xᵀ *ᵥ z2)) := by
  have hf : ¬ x.fixed < 1 := not_lt.mpr hfixed
  have hPeq : precisionMatrix x.fixed x.X W x.S x.tau2 = x.Xᵀ * Matrix.diagonal W * x.X := by
    rw [precisionMatrix_eq, if_neg hf, add_zero]
  have hPD : IsPosDef (precisionMatrix x.fixed x.X W x.S x.tau2) := by
    refine ⟨precisionMatrix_isSymm _ _ _ _ _ (fun h => absurd h hf), fun v hv => ?_⟩
    rw [precisionMatrix_quad, if_neg hf, add_zero, gram_pos_iff x.X W hW]
    exact fun h0 => hv (design_injective x.X hX v h0)
  obtain ⟨M, hMP, -, hmir⟩ := lapack_inverse E _ hPD hE
  have hinv : (x.Xᵀ * Matrix.diagonal W * x.X)⁻¹ = M := by
    rw [← hPeq]
    exact Matrix.inv_eq_left_inv hMP
  have hmu0 : (fun a => ∑ i, x.X i a * W i * z2 i) = (x.Xᵀ * Matrix.diagonal W) *ᵥ z2 := by
    funext a
    simp [Matrix.mulVec, Matrix.dotProduct, Matrix.mul_diagonal]
  have hz : ∀ i, eta id i + sc i / W i - (eta id i - x.fit i) = z2 i := by
    intro i; rw [hz2def]; ring
  have hmean : (fun a => (noise a + ∑ b, M a b * ∑ i, x.X i b * W i * z2 i) - noise a)
      = (x.Xᵀ * Matrix.diagonal W * x.X)⁻¹ *ᵥ ((x.Xᵀ * Matrix.diagonal W) *ᵥ z2) := by
    rw [hinv, ← hmu0]
    funext a
    simp [Matrix.mulVec, Matrix.dotProduct]
  subst hWdef hscdef
  refine ⟨_, rfl, ?_⟩
  simp only [hmir, hz]
  have h1 : (fun a => (∑ b, (E.dpotrf (E.dpotri (E.dpotrf (zeroLower
        (precisionMatrix x.fixed x.X (family.weights id response (family.map2par eta)) x.S
          x.tau2))).1).1).1 b a * E.rnorm b
      + ∑ b, M a b * ∑ i, x.X i b * family.weights id response (family.map2par eta) i * z2 i)
      - noise a)
      = (x.Xᵀ * Matrix.diagonal (family.weights id response (family.map2par eta)) * x.X)⁻¹ *ᵥ
        ((x.Xᵀ * Matrix.diagonal (family.weights id response (family.map2par eta))) *ᵥ z2) := by
    rw [← hmean, hnoise]
  refine ⟨h1, ?_, ?_⟩
  · intro h0
    have hn : noise = 0 := by
      rw [hnoise]; funext a; simp [h0]
    rw [← hmean]
    funext a
    rw [congrFun hn a]
    simp [h0]
  · intro c hc hWc
    have hd : Matrix.diagonal (family.weights id response (family.map2par eta))
        = c • (1 : Matrix (Fin n) (Fin n) F) := by
      ext i j
      by_cases hij : i = j
      · subst hij; simp [hWc]
      · simp [hij]
    have hN : (c⁻¹ • (x.Xᵀ * x.X)⁻¹) * (x.Xᵀ * (c • (1 : Matrix (Fin n) (Fin n) F)) * x.X) = 1 := by
      rw [Matrix.mul_smul, Matrix.mul_one, Matrix.smul_mul, Matrix.smul_mul, Matrix.mul_smul,
        smul_smul, inv_mul_cancel₀ (ne_of_gt hc), one_smul, Matrix.nonsing_inv_mul _ hX]
    rw [h1, hd, Matrix.inv_eq_left_inv hN, Matrix.mul_smul, Matrix.mul_one,
      Matrix.smul_mulVec_assoc, Matrix.smul_mulVec_assoc, Matrix.mulVec_smul, smul_smul,
      inv_mul_cancel₀ (ne_of_gt hc), one_smul]

/-- C4 (amended): `do_propose` never reads the status reported by `dpotrf` or
`dpotri`. Two sets of routines that leave the same arrays, whatever statuses
they report, give the same returned list, and the call always returns one. -/
theorem do_propose_ignores_status {ι Resp Par : Type} [DecidableEq ι] {n k : Nat}
    (E E2 : Routines F k) (family : Family ι Resp Par F n) (x : Term F n k) (response : Resp)
    (eta : ι → Fin n → F) (id : ι)
    (h1 : ∀ A, (E2.dpotrf A).1 = (E.dpotrf A).1)
    (h2 : ∀ A, (E2.dpotri A).1 = (E.dpotri A).1)
    (h3 : E2.log = E.log) (h4 : E2.rnorm = E.rnorm) (h5 : E2.rgamma = E.rgamma) :
    ∃ r, do_propose E family x response eta id = Except.ok r ∧
      do_propose E2 family x response eta id = Except.ok r := by
  refine ⟨_, rfl, ?_⟩
  unfold do_propose
  simp only [h1, h2, h3, h4, h5]

/-- C5 (amended): for a term that is neither fixed nor has a fixed smoothing
parameter, the returned `tau2` is `1 / G` with `G` the gamma variate of shape
`rank` and scale `1 / b`, where `b = b_prior + g' P g` (no factor one half),
`g` is the returned coefficient vector and `P` is the precision matrix of the
first pass, built from the weights at the current predictor. -/
theorem do_propose_tau2_current {ι Resp Par : Type} [DecidableEq ι] {n k : Nat}
    (E : Routines F k) (family : Family ι Resp Par F n) (x : Term F n k) (response : Resp)
    (eta : ι → Fin n → F) (id : ι) (hfixed : x.fixed < 1) (hfxsp : x.fxsp < 1) :
    ∃ r, do_propose E family x response eta id = Except.ok r ∧
      r.tau2 = 1 / E.rgamma x.rank (1 / (x.b + r.g ⬝ᵥ
        (precisionMatrix x.fixed x.X (family.weights id response (family.map2par eta))
          x.S x.tau2) *ᵥ r.g)) := by
  refine ⟨_, rfl, ?_⟩
  simp only [hfixed, hfxsp, and_self, if_true, quadForm_eq]
  rw [add_comm]

theorem rngDisciplined_draws (m : Nat) (rest : List RngEvent) :
    rngDisciplined 1 (List.replicate m RngEvent.draw ++ rest) = rngDisciplined 1 rest := by
  induction m with
  | zero => simp
  | succ m ih => simpa [List.replicate_succ, rngDisciplined] using ih

theorem rngDisciplined_block (m : Nat) (rest : List RngEvent) :
    rngDisciplined 0 ([RngEvent.acquire] ++ List.replicate m RngEvent.draw ++
      [RngEvent.release] ++ rest) = rngDisciplined 0 rest := by
  have h : [RngEvent.acquire] ++ List.replicate m RngEvent.draw ++ [RngEvent.release] ++ rest
      = RngEvent.acquire :: (List.replicate m RngEvent.draw ++ (RngEvent.release :: rest)) := by
    simp
  rw [h]
  show rngDisciplined 1 (List.replicate m RngEvent.draw ++ (RngEvent.release :: rest)) = _
  rw [rngDisciplined_draws]
  rfl

/-- The generator events of `do_propose` follow the scoped-acquisition
discipline, for every input. -/
theorem do_propose_trace_disciplined {ι Resp Par : Type} [DecidableEq ι] {n k : Nat}
    (E : Routines F k) (family : Family ι Resp Par F n) (x : Term F n k) (response : Resp)
    (eta : ι → Fin n → F) (id : ι) :
    ∃ r, do_propose E family x response eta id = Except.ok r ∧
      rngDisciplined 0 r.trace = true := by
  refine ⟨_, rfl, ?_⟩
  show rngDisciplined 0 ([RngEvent.acquire] ++ List.replicate k RngEvent.draw ++
    [RngEvent.release] ++ _) = true
  rw [rngDisciplined_block]
  split <;> rfl

/-- The generator events of every returning call of `uni_slice` break the
scoped-acquisition discipline: the draws of the shrinkage loop are made after
the last release. -/
theorem uni_slice_trace_undisciplined [FloorRing F] (logPost : List F → Option F)
    (rng : SliceDraws F) (g : List F) (j : Nat) (w : F) (M : Int) (lower upper : F)
    (fuel : Nat) (r : SliceOut F)
    (hret : uni_slice logPost rng g j w M lower upper fuel = some r) :
    rngDisciplined 0 r.trace = false := by
  obtain ⟨t0, sL, sR, -, -, -, -, -, htr⟩ :=
    uni_slice_some logPost rng g j w M lower upper fuel r hret
  rw [htr]
  split <;> simp [rngDisciplined, List.replicate_succ]

end ProposeProofs

/-! ## The claims on the example inputs -/

theorem exPrecision : precisionMatrix exTerm.fixed exTerm.X (fun _ => 1 / 2) exTerm.S exTerm.tau2
    = fun _ _ => 9 := by
  funext i j
  norm_num [precisionMatrix, exTerm, Fin.sum_univ_two]

/-- A positive `1 × 1` matrix has a positive quadratic form. -/
theorem exQuad_pos (c : ℚ) (hc : 0 < c) (v : Fin 1 → ℚ) (hv : v ≠ 0) :
    0 < v ⬝ᵥ (fun _ _ => c : Matrix (Fin 1) (Fin 1) ℚ) *ᵥ v := by
  have h0 : v 0 ≠ 0 := by
    intro h
    apply hv
    funext i
    rw [Fin.fin_one_eq_zero i]
    exact h
  have h1 : v ⬝ᵥ (fun _ _ => c : Matrix (Fin 1) (Fin 1) ℚ) *ᵥ v = c * v 0 ^ 2 := by
    simp [Matrix.dotProduct, Matrix.mulVec]
    ring
  rw [h1]
  positivity

/-- The example routines meet the contract at the matrix `(9)`: the factor is
`(3)` and the inverse is `(1 / 9)`. -/
theorem exRoutines_exact_nine : LapackExactAt exRoutines (fun _ _ => 9) := by
  intro _
  refine ⟨by norm_num [exRoutines, zeroLower], by norm_num [exRoutines, zeroLower, exSqrt],
    fun _ _ => 1 / 9, ?_, ?_⟩
  · ext i j
    rw [Fin.fin_one_eq_zero i, Fin.fin_one_eq_zero j]
    norm_num [Matrix.mul_apply]
  · intro i j _
    norm_num [exRoutines, zeroLower, exSqrt]

theorem exPrecisionPlane :
    precisionMatrix exTermPlane.fixed exTermPlane.X (fun _ => 1 / 1)
      exTermPlane.S exTermPlane.tau2 = Matrix.of ![![1, 3], ![3, 25]] := by
  ext i j
  fin_cases i <;> fin_cases j <;>
    norm_num [precisionMatrix, exTermPlane, exDesign, Fin.sum_univ_two]

theorem exDesign_det : IsUnit (exDesignᵀ * exDesign).det := by
  have h : exDesignᵀ * exDesign = Matrix.of ![![1, 3], ![3, 25]] := by
    ext i j
    simp only [Matrix.mul_apply, Matrix.transpose_apply, Fin.sum_univ_two]
    fin_cases i <;> fin_cases j <;> norm_num [exDesign]
  rw [h, isUnit_iff_ne_zero, Matrix.det_fin_two]
  norm_num

/-- The example routines for `k = 2` meet the contract at `(1 3; 3 25)`. -/
theorem exRoutinesPlane_exact :
    LapackExactAt exRoutinesPlane (Matrix.of ![![1, 3], ![3, 25]]) := by
  intro _
  refine ⟨by norm_num [exRoutinesPlane, zeroLower],
    by norm_num [exRoutinesPlane, zeroLower],
    Matrix.of ![![25 / 16, -3 / 16], ![-3 / 16, 1 / 16]], ?_, ?_⟩
  · ext i j
    fin_cases i <;> fin_cases j <;> norm_num [Matrix.mul_apply, Fin.sum_univ_two]
  · intro i j hij
    fin_cases i <;> fin_cases j <;>
      first
        | (exfalso; revert hij; decide)
        | norm_num [exRoutinesPlane, zeroLower]

/-- Witness for C1: the example Gaussian family (variance 2) on the example
non-fixed term with one coefficient, where `P = (9)`, and the example Gaussian
family (variance 1) on the example fixed term with two coefficients, where
`P = (1 3; 3 25)`; in both `fit = X g`. -/
theorem do_propose_gaussian_alpha_zero_witness :
    (∃ r, do_propose exRoutines exGauss exTerm () exEta () = Except.ok r ∧ r.alpha = 0) ∧
    (∃ r, do_propose exRoutinesPlane exGaussUnit exTermPlane () exEtaPlane () = Except.ok r ∧
      r.alpha = 0) :=
  ⟨do_propose_gaussian_alpha_zero exRoutines exGauss exTerm () exEta () ![5, 6] 2 7
      (by norm_num) (by norm_num [exTerm]) (fun _ => rfl) (fun _ _ => rfl) (fun _ _ => rfl)
      (by intro i; norm_num [exTerm])
      (fun _ => by ext i j; rfl)
      (by rw [exPrecision]; exact exQuad_pos 9 (by norm_num))
      (by rw [exPrecision]; exact exRoutines_exact_nine),
    do_propose_gaussian_alpha_zero exRoutinesPlane exGaussUnit exTermPlane () exEtaPlane ()
      ![5, 7] 1 7
      (by norm_num) (by norm_num [exTermPlane]) (fun _ => rfl) (fun _ _ => rfl)
      (fun _ _ => rfl)
      (by intro i; fin_cases i <;> norm_num [exTermPlane, exDesign, Fin.sum_univ_two])
      (fun h => by norm_num [exTermPlane] at h)
      (by
        intro v hv
        rw [precisionMatrix_quad, if_neg (by norm_num [exTermPlane]), add_zero,
          gram_pos_iff _ _ (fun _ => by norm_num)]
        exact fun h0 => hv (design_injective exDesign exDesign_det v h0))
      (by rw [exPrecisionPlane]; exact exRoutinesPlane_exact)⟩

/-- Witness for C6: the example fixed term with two coefficients and constant
weights 1; the proposal mean is the weighted and the ordinary least-squares
solution. -/
theorem do_propose_fixed_mean_wls_witness :
    ∃ r, do_propose exRoutinesPlane exGaussUnit exTermPlane () exEtaPlane () = Except.ok r ∧
      (fun a => r.g a - exNoise a)
        = (exTermPlane.Xᵀ *
            Matrix.diagonal (exGaussUnit.weights () () (exGaussUnit.map2par exEtaPlane))
            * exTermPlane.X)⁻¹ *ᵥ
          ((exTermPlane.Xᵀ *
            Matrix.diagonal (exGaussUnit.weights () () (exGaussUnit.map2par exEtaPlane)))
            *ᵥ exZ2) ∧
      (fun a => r.g a - exNoise a)
        = (exTermPlane.Xᵀ * exTermPlane.X)⁻¹ *ᵥ (exTermPlane.Xᵀ *ᵥ exZ2) := by
  obtain ⟨r, hr, h1, -, h3⟩ :=
    do_propose_fixed_mean_wls exRoutinesPlane exGaussUnit exTermPlane () exEtaPlane ()
      (exGaussUnit.weights () () (exGaussUnit.map2par exEtaPlane))
      (exGaussUnit.score () () (exGaussUnit.map2par exEtaPlane)) exZ2 exNoise rfl rfl rfl rfl
      (by norm_num [exTermPlane])
      (by intro i; norm_num [exGaussUnit])
      exDesign_det
      (by
        have h : exGaussUnit.weights () () (exGaussUnit.map2par exEtaPlane)
            = fun _ => 1 / 1 := rfl
        rw [h, exPrecisionPlane]
        exact exRoutinesPlane_exact)
  exact ⟨r, hr, h1, h3 1 (by norm_num) (fun _ => by norm_num [exGaussUnit])⟩

/-- C4 counterexample: on a fixed term with a zero design matrix the
factorization reports a nonzero status in both passes, and `do_propose`
returns a list all the same. -/
theorem do_propose_returns_after_failed_factorization :
    ∃ r, do_propose exRoutines exGauss exTermSingular () exEta () = Except.ok r ∧
      (exRoutines.dpotrf (zeroLower (precisionMatrix exTermSingular.fixed exTermSingular.X
        (exGauss.weights () () (exGauss.map2par exEta))
        exTermSingular.S exTermSingular.tau2))).2 ≠ 0 ∧
      (exRoutines.dpotrf (zeroLower (precisionMatrix exTermSingular.fixed exTermSingular.X
        (exGauss.weights () () (exGauss.map2par (proposedEta exTermSingular exEta () r.g)))
        exTermSingular.S exTermSingular.tau2))).2 ≠ 0 := by
  refine ⟨_, rfl, ?_, ?_⟩
  · norm_num [exRoutines, exGauss, exTermSingular, precisionMatrix, zeroLower]
  · norm_num [exRoutines, exGauss, exTermSingular, precisionMatrix, zeroLower]

/-- Witness for C4 (amended): the example routines and the routines that leave
the same arrays but always report status 7 return the same list. -/
theorem do_propose_ignores_status_witness :
    ∃ r, do_propose exRoutines exGauss exTerm () exEta () = Except.ok r ∧
      do_propose exRoutinesFailing exGauss exTerm () exEta () = Except.ok r :=
  do_propose_ignores_status exRoutines exRoutinesFailing exGauss exTerm () exEta ()
    (fun _ => rfl) (fun _ => rfl) rfl rfl rfl

/-- C5 counterexample: on the example term the returned `tau2` is not
`1 / G` for `b = b_prior + 0.5 * g' P_proposed g`; nor is it with the factor
one half dropped, nor with the first-pass matrix and the factor one half. -/
theorem do_propose_tau2_not_half_proposed :
    ∃ r, do_propose exRoutines exVarying exTerm () exEta () = Except.ok r ∧
      r.tau2 ≠ 1 / exRoutines.rgamma exTerm.rank (1 / (exTerm.b + 1 / 2 * (r.g ⬝ᵥ
        (precisionMatrix exTerm.fixed exTerm.X
          (exVarying.weights () () (exVarying.map2par (proposedEta exTerm exEta () r.g)))
          exTerm.S exTerm.tau2) *ᵥ r.g))) ∧
      r.tau2 ≠ 1 / exRoutines.rgamma exTerm.rank (1 / (exTerm.b + (r.g ⬝ᵥ
        (precisionMatrix exTerm.fixed exTerm.X
          (exVarying.weights () () (exVarying.map2par (proposedEta exTerm exEta () r.g)))
          exTerm.S exTerm.tau2) *ᵥ r.g))) ∧
      r.tau2 ≠ 1 / exRoutines.rgamma exTerm.rank (1 / (exTerm.b + 1 / 2 * (r.g ⬝ᵥ
        (precisionMatrix exTerm.fixed exTerm.X
          (exVarying.weights () () (exVarying.map2par exEta))
          exTerm.S exTerm.tau2) *ᵥ r.g))) := by
  refine ⟨_, rfl, ?_, ?_, ?_⟩
  · norm_num [exRoutines, exVarying, exTerm, exEta, precisionMatrix, zeroLower, mirrorUpper,
      exSqrt, Fin.sum_univ_two, quadForm, proposedEta, Matrix.dotProduct, Matrix.mulVec]
  · norm_num [exRoutines, exVarying, exTerm, exEta, precisionMatrix, zeroLower, mirrorUpper,
      exSqrt, Fin.sum_univ_two, quadForm, proposedEta, Matrix.dotProduct, Matrix.mulVec]
  · norm_num [exRoutines, exVarying, exTerm, exEta, precisionMatrix, zeroLower, mirrorUpper,
      exSqrt, Fin.sum_univ_two, quadForm, proposedEta, Matrix.dotProduct, Matrix.mulVec]

/-- Witness for C5 (amended). -/
theorem do_propose_tau2_current_witness :
    ∃ r, do_propose exRoutines exVarying exTerm () exEta () = Except.ok r ∧
      r.tau2 = 1 / exRoutines.rgamma exTerm.rank (1 / (exTerm.b + r.g ⬝ᵥ
        (precisionMatrix exTerm.fixed exTerm.X
          (exVarying.weights () () (exVarying.map2par exEta)) exTerm.S exTerm.tau2) *ᵥ r.g)) :=
  do_propose_tau2_current exRoutines exVarying exTerm () exEta () (by norm_num [exTerm])
    (by norm_num [exTerm])

/-- C9, the failing run: in the example run of `uni_slice` the two draws of
the shrinkage loop come after the release, so the trace breaks the
scoped-acquisition discipline. -/
theorem uni_slice_shrink_draw_unacquired :
    uni_slice exLogPost exDraws [1, 5] 1 4 0 (-10) 10 5 = some exSliceOut ∧
      exSliceOut.trace = [RngEvent.acquire, RngEvent.draw, RngEvent.draw, RngEvent.release,
        RngEvent.draw, RngEvent.draw] ∧
      rngDisciplined 0 exSliceOut.trace = false :=
  ⟨exSliceOut_run, rfl, by decide⟩

end BayesR
